import Mathlib

/-!
Shallow embedding of `src/generate-team-data.js` (the build-time dataset
generator of the pokedex-team repository).  JavaScript strings are modelled
as Lean `String`s (lists of Unicode scalar characters); the handful of
library calls the script makes (`trim`, `split`, regex replaces,
`normalize("NFD")`, `Map`) are modelled explicitly below, each next to the
source construct it embeds.  Network effects are modelled by oracles
(`Except`-valued fetch functions) and `console` output by a list of
structured `LogEntry` values, one constructor per `console.*` call site.
-/

/-- Model of the JavaScript `\s` character class (also the character set
removed by `String.prototype.trim`): ASCII whitespace, NEL-free Unicode
space separators, line/paragraph separators and the BOM. -/
def jsIsWhitespace (c : Char) : Bool :=
  c.toNat = 0x20 || c.toNat = 0x09 || c.toNat = 0x0a || c.toNat = 0x0b ||
  c.toNat = 0x0c || c.toNat = 0x0d || c.toNat = 0xa0 || c.toNat = 0x1680 ||
  (0x2000 ≤ c.toNat && c.toNat ≤ 0x200a) || c.toNat = 0x2028 || c.toNat = 0x2029 ||
  c.toNat = 0x202f || c.toNat = 0x205f || c.toNat = 0x3000 || c.toNat = 0xfeff

/-- Model of `String.prototype.trim` on character lists: drop
`jsIsWhitespace` characters from both ends. -/
def jsTrimList (l : List Char) : List Char :=
  ((l.dropWhile jsIsWhitespace).reverse.dropWhile jsIsWhitespace).reverse

/-- Model of `String.prototype.trim`. -/
def jsTrim (s : String) : String :=
  String.mk (jsTrimList s.data)

/-- Model of `content.split(/\r?\n/)`: split at each newline, consuming an
immediately preceding carriage return; a lone carriage return does not
split. -/
def splitLinesAux : List Char → List Char → List (List Char)
  | [], acc => [acc.reverse]
  | '\r' :: '\n' :: rest, acc => acc.reverse :: splitLinesAux rest []
  | '\n' :: rest, acc => acc.reverse :: splitLinesAux rest []
  | c :: rest, acc => splitLinesAux rest (c :: acc)

/-- String wrapper for `splitLinesAux`. -/
def splitLines (s : String) : List String :=
  (splitLinesAux s.data []).map String.mk

/-- Model of `line.split(",")` (JavaScript string-separator split: no limit,
empty fields kept, `"".split(",") = [""]`). -/
def splitCommaAux : List Char → List Char → List (List Char)
  | [], acc => [acc.reverse]
  | ',' :: rest, acc => acc.reverse :: splitCommaAux rest []
  | c :: rest, acc => splitCommaAux rest (c :: acc)

/-- String wrapper for `splitCommaAux`. -/
def splitComma (s : String) : List String :=
  (splitCommaAux s.data []).map String.mk

/-- Embedding of `parseCsv` (src/generate-team-data.js lines 81-87): split
into lines, trim each, drop blank lines and `#`-comments, split the rest on
commas and trim every field.  The `line.startsWith("#")` test on a trimmed
line is the test that its first character is `#`. -/
def parseCsv (content : String) : List (List String) :=
  (((splitLinesAux content.data []).map jsTrimList).filter
      (fun line => !line.isEmpty && !(line.head? == some '#'))).map
    (fun line => (splitCommaAux line []).map (fun f => String.mk (jsTrimList f)))


/-- Model of a global regex replace of every maximal run of `p`-characters
by the single character `rep` (the shape of `.replace(/X+/g, "R")`).  The
Boolean argument records whether the previous character was part of a run. -/
def replaceRunsAux (p : Char → Bool) (rep : Char) : Bool → List Char → List Char
  | _, [] => []
  | inRun, c :: rest =>
    if p c then
      if inRun then replaceRunsAux p rep true rest
      else rep :: replaceRunsAux p rep true rest
    else c :: replaceRunsAux p rep false rest

/-- Entry point of `replaceRunsAux`: no run is open at the start. -/
def replaceRuns (p : Char → Bool) (rep : Char) (l : List Char) : List Char :=
  replaceRunsAux p rep false l

/-- Partial model of Unicode NFD decomposition (`value.normalize("NFD")`):
the listed precomposed Latin letters decompose into base letter plus
combining mark; every other character is left alone.  This covers the
accented letters occurring in the French reference names; real NFD agrees
with the identity default on all ASCII characters, which is all the
normal-form proofs below rely on. -/
def nfdTable : List (Char × List Char) :=
  [('à', ['a', '̀']), ('â', ['a', '̂']), ('ä', ['a', '̈']),
   ('á', ['a', '́']), ('ç', ['c', '̧']), ('è', ['e', '̀']),
   ('é', ['e', '́']), ('ê', ['e', '̂']), ('ë', ['e', '̈']),
   ('î', ['i', '̂']), ('ï', ['i', '̈']), ('í', ['i', '́']),
   ('ñ', ['n', '̃']), ('ô', ['o', '̂']), ('ö', ['o', '̈']),
   ('ó', ['o', '́']), ('ù', ['u', '̀']), ('û', ['u', '̂']),
   ('ü', ['u', '̈']), ('ú', ['u', '́']),
   ('À', ['A', '̀']), ('Â', ['A', '̂']), ('Ç', ['C', '̧']),
   ('È', ['E', '̀']), ('É', ['E', '́']), ('Ê', ['E', '̂']),
   ('Î', ['I', '̂']), ('Ï', ['I', '̈']), ('Ô', ['O', '̂']),
   ('Ù', ['U', '̀']), ('Û', ['U', '̂']), ('Ü', ['U', '̈'])]

/-- Decomposition of a single character under the partial NFD model. -/
def nfdChar (c : Char) : List Char :=
  match nfdTable.find? (fun e => e.1 == c) with
  | some e => e.2
  | none => [c]

/-- Model of the character class `[̀-ͯ]` (combining diacritical
marks), stripped by `normalizeName` after decomposition. -/
def isCombiningMark (c : Char) : Bool :=
  0x300 ≤ c.toNat && c.toNat ≤ 0x36f

/-- Membership in the character class `[a-z0-9]` used by `normalizeName`'s
replace of `[^a-z0-9]+`. -/
def isLowerAlnum (c : Char) : Bool :=
  (0x61 ≤ c.toNat && c.toNat ≤ 0x7a) || (0x30 ≤ c.toNat && c.toNat ≤ 0x39)

/-- Model of one application of the anchored alternative `^-` of the final
`.replace(/^-|-$/g, "")`: remove a single leading hyphen. -/
def dropLeadingHyphen : List Char → List Char
  | [] => []
  | c :: rest => if c = '-' then rest else c :: rest

/-- Model of `.replace(/^-|-$/g, "")`: one leading and one trailing hyphen
are removed (a trailing hyphen of the list is a leading hyphen of its
reverse). -/
def stripEdgeHyphens (l : List Char) : List Char :=
  (dropLeadingHyphen (dropLeadingHyphen l).reverse).reverse

/-- Embedding of `normalizeName` (src/generate-team-data.js lines 195-204)
on character lists: NFD-decompose, strip combining marks, lowercase
(`Char.toLower` agrees with `toLowerCase` on the ASCII letters that survive
the later `[^a-z0-9]` filter), collapse every `[^a-z0-9]+` run to a hyphen,
collapse hyphen runs, and strip one hyphen from each end. -/
def normalizeNameList (l : List Char) : List Char :=
  stripEdgeHyphens (replaceRuns (fun c => c == '-') '-'
    (replaceRuns (fun c => !isLowerAlnum c) '-'
      (((l.flatMap nfdChar).filter (fun c => !isCombiningMark c)).map Char.toLower)))

/-- Embedding of `normalizeName` on strings. -/
def normalizeName (value : String) : String :=
  String.mk (normalizeNameList value.data)

/-- Embedding of `slugifyName` (src/generate-team-data.js lines 206-208):
it simply delegates to `normalizeName`. -/
def slugifyName (value : String) : String :=
  normalizeName value


/-- Model of the JavaScript `Map` used as the alias table: an association
list where `set` prepends, so the most recently written binding for a key
is found first (matching `Map.set` overwrite semantics under `get`). -/
abbrev AliasMap := List (String × String)

/-- Model of `map.set(k, v)`. -/
def mapSet (map : AliasMap) (k v : String) : AliasMap :=
  (k, v) :: map

/-- Model of `map.get(k)` (`none` exactly when `map.has(k)` is false). -/
def mapGet (k : String) (map : AliasMap) : Option String :=
  (map.find? (fun e => e.1 == k)).map (fun e => e.2)

/-- Record of the external reference dataset (`pokedex.json`): `id` is a
JSON number (a non-negative integer in that dataset, so `String(entry.id)`
is `toString id`), and the `name` object with its `english`/`french` fields
may each be absent. -/
structure NameEntry where
  english : Option String
  french : Option String
deriving Repr, DecidableEq

/-- One record of the reference dataset. -/
structure PokedexEntry where
  id : Nat
  name : Option NameEntry
deriving Repr, DecidableEq

/-- Embedding of the per-record body of `buildPokemonAliasMap`
(src/generate-team-data.js lines 115-125): the four variants
`[id, english, french, slugifyName(english)]` are written (truthy ones
only, i.e. non-empty strings) under their normalized forms, all mapped to
the record's id. -/
def addAliasEntry (map : AliasMap) (entry : PokedexEntry) : AliasMap :=
  let id := toString entry.id
  let english := (entry.name.bind NameEntry.english).getD ""
  let french := (entry.name.bind NameEntry.french).getD ""
  [id, english, french, slugifyName english].foldl
    (fun map variant => if variant == "" then map else mapSet map (normalizeName variant) id)
    map

/-- Embedding of `buildPokemonAliasMap` (lines 111-128) minus the network
fetch: fold the fetched records into the alias table in order. -/
def buildPokemonAliasMap (data : List PokedexEntry) : AliasMap :=
  data.foldl addAliasEntry []

/-- Embedding of `resolvePokemonIdentifier` (lines 89-99), with the alias
map passed explicitly: return the alias hit for the normalized raw name,
else the slug of the raw name, else (empty slug) the raw name itself. -/
def resolvePokemonIdentifier (aliasMap : AliasMap) (rawName : String) : String :=
  let normalized := normalizeName rawName
  match mapGet normalized aliasMap with
  | some id => id
  | none =>
      let slug := slugifyName rawName
      if slug.length > 0 then slug else rawName

/-- Structured model of the `console` output: one constructor per
`console.*` call site of src/generate-team-data.js, carrying the data the
printed message interpolates. -/
inductive LogEntry where
  | noDataFound
  | skippingIncompleteRow (row : List String)
  | noArtworkFound (pokemon : String)
  | failedToFetch (pokemon : String) (message : String)
  | aliasMapFetchFailed (message : String)
deriving Repr, DecidableEq

/-- Embedding of `getPokemonAliasMap`'s behaviour as a function of the
outcome of `buildPokemonAliasMap`'s fetch (lines 101-109): a successful
fetch yields the built table, a failure is logged (`console.error`) and
degrades to the empty table `new Map()` — never a thrown error. -/
def getPokemonAliasMapResult (fetchResult : Except String (List PokedexEntry)) :
    AliasMap × List LogEntry :=
  match fetchResult with
  | .ok data => (buildPokemonAliasMap data, [])
  | .error e => ([], [.aliasMapFetchFailed e])

/-- State of the module-level memoization slot `aliasMapPromise` (line 8):
`promise` holds the identity of the stored promise (numbered by the fetch
that created it) once set, and `fetchCount` counts how many alias-table
fetches have been started. -/
structure AliasCacheState where
  promise : Option Nat
  fetchCount : Nat
deriving Repr, DecidableEq

/-- Process start: no promise stored, no fetch started. -/
def initialAliasCacheState : AliasCacheState :=
  { promise := none, fetchCount := 0 }

/-- Embedding of one call to `getPokemonAliasMap` (lines 101-109) as an
atomic step: the `if (!aliasMapPromise)` test and the assignment to
`aliasMapPromise` run in one synchronous section of the single-threaded
event loop (there is no `await` between them), so a call either finds the
stored promise and returns it, or starts one fetch, stores its promise and
returns it.  The returned `Nat` is the identity of the promise the caller
awaits. -/
def getPokemonAliasMapStep (st : AliasCacheState) : AliasCacheState × Nat :=
  match st.promise with
  | some p => (st, p)
  | none => ({ promise := some st.fetchCount, fetchCount := st.fetchCount + 1 }, st.fetchCount)

/-- Run a sequence of `n` calls to `getPokemonAliasMap` (in any
interleaving of the single-threaded event loop the calls form such a
sequence), collecting the promise each call returns. -/
def runAliasCalls : Nat → AliasCacheState → AliasCacheState × List Nat
  | 0, st => (st, [])
  | n + 1, st =>
      let step := getPokemonAliasMapStep st
      let rest := runAliasCalls n step.1
      (rest.1, step.2 :: rest.2)

/-- Layer of `pokemonData.sprites.other["official-artwork"]` holding the
high-resolution artwork URL; `front_default` may be JSON `null`. -/
structure OfficialArtwork where
  front_default : Option String
deriving Repr, DecidableEq

/-- Layer `sprites.other` (field `officialArtwork` models the JSON key
`"official-artwork"`). -/
structure SpritesOther where
  officialArtwork : Option OfficialArtwork
deriving Repr, DecidableEq

/-- Layer `sprites` of the primary record. -/
structure Sprites where
  other : Option SpritesOther
  front_default : Option String
deriving Repr, DecidableEq

/-- Primary record returned by the `pokemon` endpoint (only the fields the
script reads). -/
structure PokemonData where
  sprites : Option Sprites
deriving Repr, DecidableEq

/-- Embedding of the image selection expression of `main` (lines 44-47):
`pokemonData?.sprites?.other?.["official-artwork"]?.front_default ??
pokemonData?.sprites?.front_default ?? null`, with optional chaining as
`Option.bind` and `??` as `<|>`. -/
def selectImage (pokemonData : Option PokemonData) : Option String :=
  ((((pokemonData.bind PokemonData.sprites).bind Sprites.other).bind
      SpritesOther.officialArtwork).bind OfficialArtwork.front_default) <|>
    ((pokemonData.bind PokemonData.sprites).bind Sprites.front_default)

/-- Layer `entry.language` of a flavor text entry. -/
structure FlavorLanguage where
  name : Option String
deriving Repr, DecidableEq

/-- One element of `flavor_text_entries` of the species record. -/
structure FlavorTextEntry where
  flavor_text : Option String
  language : Option FlavorLanguage
deriving Repr, DecidableEq

/-- Species record returned by the `pokemon-species` endpoint (only the
field the script reads). -/
structure SpeciesData where
  flavor_text_entries : Option (List FlavorTextEntry)
deriving Repr, DecidableEq

/-- The predicate `entry.language?.name === "lang"` used with `find` in
`extractFlavorText`. -/
def isLanguageEntry (lang : String) (entry : FlavorTextEntry) : Bool :=
  (entry.language.bind FlavorLanguage.name) == some lang

/-- Embedding of `sanitizeFlavorText` (lines 181-186): replace every form
feed by a space, collapse every whitespace run (`\s+`) to one space, trim. -/
def sanitizeFlavorText (rawText : String) : String :=
  jsTrim (String.mk (replaceRuns jsIsWhitespace ' '
    (rawText.data.map (fun c => if c == '\u000c' then ' ' else c))))

/-- Embedding of `extractFlavorText` (lines 171-179): the `??` chain over
the `find`-selected French entry's text, the English entry's text, the
first entry's text, and the empty string, sanitized. -/
def extractFlavorText (speciesData : Option SpeciesData) : String :=
  let entries := (speciesData.bind SpeciesData.flavor_text_entries).getD []
  let frenchEntry := entries.find? (isLanguageEntry "fr")
  let englishEntry := entries.find? (isLanguageEntry "en")
  let fallback := entries.head?
  let text := ((frenchEntry.bind FlavorTextEntry.flavor_text) <|>
      (englishEntry.bind FlavorTextEntry.flavor_text) <|>
      (fallback.bind FlavorTextEntry.flavor_text)).getD ""
  sanitizeFlavorText text


/-- Model of `word.split(/\s+/)` (JavaScript regex split: a maximal
whitespace run separates fields, so a leading or trailing run produces an
empty field). -/
def splitWsAux : Bool → List Char → List Char → List (List Char)
  | _, [], acc => [acc.reverse]
  | inWs, c :: rest, acc =>
    if jsIsWhitespace c then
      if inWs then splitWsAux true rest acc
      else acc.reverse :: splitWsAux true rest []
    else splitWsAux false rest (c :: acc)

/-- Embedding of the per-word body of `capitalizeName`:
`word.charAt(0).toUpperCase() + word.slice(1).toLowerCase()`
(`Char.toUpper`/`Char.toLower` agree with the JavaScript case maps on
ASCII). -/
def capWord (w : String) : String :=
  match w.data with
  | [] => ""
  | c :: rest => String.mk (Char.toUpper c :: rest.map Char.toLower)

/-- Embedding of `capitalizeName` (lines 188-193): split on whitespace
runs, capitalize each word, join with single spaces. -/
def capitalizeName (name : String) : String :=
  String.intercalate " " (((splitWsAux false name.data []).map String.mk).map capWord)


/-- Output record pushed onto `datasets` (lines 55-60). -/
structure TeamRecord where
  name : String
  pokemon : String
  image : Option String
  description : String
deriving Repr, DecidableEq

/-- Model of the array destructuring `const [person, pokemon] = row`: the
`i`-th field of the row, with a missing field (JavaScript `undefined`,
falsy like the empty string) modelled as `""`. -/
def rowField (row : List String) (i : Nat) : String :=
  row.getD i ""

/-- Embedding of one iteration of the row loop of `main` (lines 28-64),
with the two PokeAPI endpoints as oracles keyed by the resolved identifier
(what `fetchJson` resolves on the two URLs of lines 40-41, `.error` when
either request fails or its body fails to parse; `Promise.all` fails when
either endpoint fails).  Destructuring `const [person, pokemon] = row`
yields a falsy value for a missing field, which the guard treats exactly
like the empty string. -/
def processRow (aliasMap : AliasMap)
    (fetchPokemon : String → Except String (Option PokemonData))
    (fetchSpecies : String → Except String (Option SpeciesData))
    (row : List String) : Option TeamRecord × List LogEntry :=
  let person := rowField row 0
  let pokemon := rowField row 1
  if person == "" || pokemon == "" then
    (none, [.skippingIncompleteRow row])
  else
    let trimmedPokemon := jsTrim pokemon
    let identifier := resolvePokemonIdentifier aliasMap trimmedPokemon
    match fetchPokemon identifier, fetchSpecies identifier with
    | .ok pokemonData, .ok speciesData =>
        let image := selectImage pokemonData
        let logs := if image.isNone then [LogEntry.noArtworkFound pokemon] else []
        (some { name := jsTrim person, pokemon := capitalizeName trimmedPokemon,
                image := image, description := extractFlavorText speciesData }, logs)
    | .error e, _ => (none, [.failedToFetch pokemon e])
    | .ok _, .error e => (none, [.failedToFetch pokemon e])

/-- The row loop of `main`: rows processed strictly in order, each
successful row appending exactly its record, each failed or skipped row
appending nothing. -/
def processRows (aliasMap : AliasMap)
    (fetchPokemon : String → Except String (Option PokemonData))
    (fetchSpecies : String → Except String (Option SpeciesData)) :
    List (List String) → List TeamRecord × List LogEntry
  | [] => ([], [])
  | row :: rest =>
      let head := processRow aliasMap fetchPokemon fetchSpecies row
      let tail := processRows aliasMap fetchPokemon fetchSpecies rest
      (head.1.toList ++ tail.1, head.2 ++ tail.2)

/-- Outcome of a run of `main`: `fatalError` models `process.exit(1)`
after an error message, `success` the dataset that gets serialized. -/
inductive RunOutcome where
  | fatalError (logs : List LogEntry)
  | success (dataset : List TeamRecord) (logs : List LogEntry)
deriving Repr, DecidableEq

/-- Embedding of `main` (lines 18-66) from the point where the CSV content
has been read, with the alias table and the two endpoints given: parse,
exit fatally when `rows.length === 0` (lines 22-25, "No data found in
CSV."), otherwise run the row loop and serialize the dataset (the JSON and
sidecar writing of lines 66-78 do not alter the dataset and are outside the
model). -/
def mainRun (aliasMap : AliasMap)
    (fetchPokemon : String → Except String (Option PokemonData))
    (fetchSpecies : String → Except String (Option SpeciesData))
    (csvContent : String) : RunOutcome :=
  let rows := parseCsv csvContent
  if rows.length = 0 then
    .fatalError [.noDataFound]
  else
    let result := processRows aliasMap fetchPokemon fetchSpecies rows
    .success result.1 result.2

/-- Adjacency relation used to characterise `replaceRuns` outputs: no two
neighbouring characters may both satisfy `p`. -/
def NotBothAdj (p : Char → Bool) (a b : Char) : Prop :=
  ¬(p a = true ∧ p b = true)

/-- Normal form of `normalizeName` outputs: only lowercase alphanumerics
and hyphens, no two adjacent hyphens, and no hyphen at either end. -/
def IsNormalList (l : List Char) : Prop :=
  (∀ c ∈ l, isLowerAlnum c = true ∨ c = '-') ∧
  l.Chain' (NotBothAdj (fun c => c == '-')) ∧
  (∀ c, l.head? = some c → c ≠ '-') ∧
  (∀ c, l.getLast? = some c → c ≠ '-')

theorem parseCsv_examples :
    parseCsv "Ash,Pikachu\nMisty,Starmie" = [["Ash", "Pikachu"], ["Misty", "Starmie"]] ∧
    parseCsv "# comment\n\n A , B \n" = [["A", "B"]] ∧
    parseCsv "," = [["", ""]] :=
  ⟨by decide, by decide, by decide⟩

theorem normalizeName_examples :
    normalizeName "Pikachu" = "pikachu" ∧ normalizeName "PIKACHU" = "pikachu" ∧
    normalizeName "Mr. Mime" = "mr-mime" ∧ normalizeName "Flabébé" = "flabebe" ∧
    normalizeName "--a--b--" = "a-b" ∧ normalizeName "!!!" = "" :=
  ⟨by decide, by decide, by decide, by decide, by decide, by decide⟩

theorem sanitizeFlavorText_example :
    sanitizeFlavorText "  a\u000c\n  b \n" = "a b" := by
  decide

theorem replaceRunsAux_nil {p : Char → Bool} {rep : Char} (b : Bool) :
    replaceRunsAux p rep b [] = [] := by
  cases b <;> rfl

theorem replaceRunsAux_cons_pos {p : Char → Bool} {rep a : Char} {l : List Char}
    (hp : p a = true) :
    replaceRunsAux p rep true (a :: l) = replaceRunsAux p rep true l ∧
    replaceRunsAux p rep false (a :: l) = rep :: replaceRunsAux p rep true l := by
  constructor <;> simp [replaceRunsAux, hp]

theorem replaceRunsAux_cons_neg {p : Char → Bool} {rep a : Char} {l : List Char}
    (hp : ¬p a = true) (b : Bool) :
    replaceRunsAux p rep b (a :: l) = a :: replaceRunsAux p rep false l := by
  cases b <;> simp [replaceRunsAux, hp]

theorem mem_replaceRunsAux {p : Char → Bool} {rep : Char} :
    ∀ (b : Bool) (l : List Char) (c : Char), c ∈ replaceRunsAux p rep b l →
      c = rep ∨ (c ∈ l ∧ p c = false) := by
  intro b l
  induction l generalizing b with
  | nil => intro c h; rw [replaceRunsAux_nil] at h; simp at h
  | cons a rest ih =>
    intro c h
    by_cases hp : p a = true
    · cases b with
      | true =>
        rw [(replaceRunsAux_cons_pos hp).1] at h
        rcases ih true c h with h1 | ⟨h2, h3⟩
        · exact .inl h1
        · exact .inr ⟨List.mem_cons_of_mem _ h2, h3⟩
      | false =>
        rw [(replaceRunsAux_cons_pos hp).2] at h
        rcases List.mem_cons.mp h with h1 | h1
        · exact .inl h1
        · rcases ih true c h1 with h2 | ⟨h2, h3⟩
          · exact .inl h2
          · exact .inr ⟨List.mem_cons_of_mem _ h2, h3⟩
    · rw [replaceRunsAux_cons_neg hp] at h
      rcases List.mem_cons.mp h with h1 | h1
      · subst h1
        exact .inr ⟨List.mem_cons_self _ _, Bool.not_eq_true _ ▸ hp⟩
      · rcases ih false c h1 with h2 | ⟨h2, h3⟩
        · exact .inl h2
        · exact .inr ⟨List.mem_cons_of_mem _ h2, h3⟩

theorem head?_replaceRunsAux_true {p : Char → Bool} {rep : Char} :
    ∀ (l : List Char) (c : Char), (replaceRunsAux p rep true l).head? = some c →
      p c = false := by
  intro l
  induction l with
  | nil => intro c h; rw [replaceRunsAux_nil] at h; simp at h
  | cons a rest ih =>
    intro c h
    by_cases hp : p a = true
    · rw [(replaceRunsAux_cons_pos hp).1] at h
      exact ih c h
    · rw [replaceRunsAux_cons_neg hp] at h
      simp only [List.head?_cons, Option.some.injEq] at h
      subst h
      exact Bool.not_eq_true _ ▸ hp

theorem chain'_replaceRunsAux {p : Char → Bool} {rep : Char} :
    ∀ (b : Bool) (l : List Char), (replaceRunsAux p rep b l).Chain' (NotBothAdj p) := by
  intro b l
  induction l generalizing b with
  | nil => rw [replaceRunsAux_nil]; exact List.chain'_nil
  | cons a rest ih =>
    by_cases hp : p a = true
    · cases b with
      | true => rw [(replaceRunsAux_cons_pos hp).1]; exact ih true
      | false =>
        rw [(replaceRunsAux_cons_pos hp).2]
        refine List.chain'_cons'.mpr ⟨?_, ih true⟩
        intro y hy
        have hpy : p y = false := head?_replaceRunsAux_true rest y hy
        exact fun hc => by simp [hpy] at hc
    · rw [replaceRunsAux_cons_neg hp]
      refine List.chain'_cons'.mpr ⟨?_, ih false⟩
      intro y _
      exact fun hc => hp hc.1

theorem replaceRunsAux_eq_self {p : Char → Bool} {rep : Char} :
    ∀ (l : List Char) (b : Bool),
      (∀ c ∈ l, p c = true → c = rep) →
      l.Chain' (NotBothAdj p) →
      (b = true → ∀ c, l.head? = some c → p c = false) →
      replaceRunsAux p rep b l = l := by
  intro l
  induction l with
  | nil => intro b _ _ _; exact replaceRunsAux_nil b
  | cons a rest ih =>
    intro b hall hchain hhead
    have hchainRest := (List.chain'_cons'.mp hchain).2
    have hrel := (List.chain'_cons'.mp hchain).1
    have hallRest : ∀ c ∈ rest, p c = true → c = rep :=
      fun c hc => hall c (List.mem_cons_of_mem _ hc)
    cases b with
    | true =>
      have hpa : ¬p a = true := by
        rw [hhead rfl a rfl]; exact Bool.false_ne_true
      rw [replaceRunsAux_cons_neg hpa]
      rw [ih false hallRest hchainRest (fun hb => absurd hb Bool.false_ne_true)]
    | false =>
      by_cases hp : p a = true
      · have ha : a = rep := hall a (List.mem_cons_self _ _) hp
        have hheadRest : ∀ c, rest.head? = some c → p c = false := by
          intro c hc
          have := hrel c hc
          by_contra hpc
          exact this ⟨hp, Bool.not_eq_false _ ▸ hpc⟩
        rw [(replaceRunsAux_cons_pos hp).2,
          ih true hallRest hchainRest (fun _ => hheadRest), ha]
      · rw [replaceRunsAux_cons_neg hp]
        rw [ih false hallRest hchainRest (fun hb => absurd hb Bool.false_ne_true)]

theorem chain'_imp_mem {R S : Char → Char → Prop} :
    ∀ (l : List Char), (∀ a ∈ l, ∀ b ∈ l, R a b → S a b) → l.Chain' R → l.Chain' S := by
  intro l
  induction l with
  | nil => intro _ _; exact List.chain'_nil
  | cons a rest ih =>
    intro h hc
    rcases List.chain'_cons'.mp hc with ⟨h1, h2⟩
    refine List.chain'_cons'.mpr
      ⟨?_, ih (fun x hx y hy => h x (List.mem_cons_of_mem _ hx) y (List.mem_cons_of_mem _ hy)) h2⟩
    intro y hy
    have hy' : y ∈ rest := by
      cases rest with
      | nil => simp at hy
      | cons z zs =>
        simp only [List.head?_cons, Option.mem_def, Option.some.injEq] at hy
        exact hy ▸ List.mem_cons_self _ _
    exact h a (List.mem_cons_self _ _) y (List.mem_cons_of_mem _ hy') (h1 y hy)

theorem dropLeadingHyphen_nil : dropLeadingHyphen [] = [] := rfl

theorem dropLeadingHyphen_cons_pos {rest : List Char} :
    dropLeadingHyphen ('-' :: rest) = rest := by
  simp [dropLeadingHyphen]

theorem dropLeadingHyphen_cons_neg {a : Char} {rest : List Char} (ha : a ≠ '-') :
    dropLeadingHyphen (a :: rest) = a :: rest := by
  simp [dropLeadingHyphen, ha]

theorem mem_dropLeadingHyphen {c : Char} {l : List Char}
    (h : c ∈ dropLeadingHyphen l) : c ∈ l := by
  cases l with
  | nil => rw [dropLeadingHyphen_nil] at h; simp at h
  | cons a rest =>
    by_cases ha : a = '-'
    · subst ha
      rw [dropLeadingHyphen_cons_pos] at h
      exact List.mem_cons_of_mem _ h
    · rwa [dropLeadingHyphen_cons_neg ha] at h

theorem chain'_dropLeadingHyphen {R : Char → Char → Prop} {l : List Char}
    (h : l.Chain' R) : (dropLeadingHyphen l).Chain' R := by
  cases l with
  | nil => exact h
  | cons a rest =>
    by_cases ha : a = '-'
    · subst ha
      rw [dropLeadingHyphen_cons_pos]
      exact (List.chain'_cons'.mp h).2
    · rwa [dropLeadingHyphen_cons_neg ha]

theorem head?_dropLeadingHyphen {l : List Char}
    (hc : l.Chain' (NotBothAdj (fun c => c == '-'))) :
    ∀ c, (dropLeadingHyphen l).head? = some c → c ≠ '-' := by
  intro c h
  cases l with
  | nil => rw [dropLeadingHyphen_nil] at h; simp at h
  | cons a rest =>
    by_cases ha : a = '-'
    · subst ha
      rw [dropLeadingHyphen_cons_pos] at h
      have hrel := (List.chain'_cons'.mp hc).1 c (Option.mem_def.mpr h)
      intro hcc
      exact hrel ⟨by simp, by simp [hcc]⟩
    · rw [dropLeadingHyphen_cons_neg ha] at h
      simp only [List.head?_cons, Option.some.injEq] at h
      exact h ▸ ha

theorem getLast?_dropLeadingHyphen {l : List Char} {c : Char}
    (h : (dropLeadingHyphen l).getLast? = some c) : l.getLast? = some c := by
  cases l with
  | nil => rwa [dropLeadingHyphen_nil] at h
  | cons a rest =>
    by_cases ha : a = '-'
    · subst ha
      rw [dropLeadingHyphen_cons_pos] at h
      cases rest with
      | nil => simp at h
      | cons b rs => rw [List.getLast?_cons_cons]; exact h
    · rwa [dropLeadingHyphen_cons_neg ha] at h

theorem dropLeadingHyphen_eq_self {l : List Char}
    (h : ∀ c, l.head? = some c → c ≠ '-') : dropLeadingHyphen l = l := by
  cases l with
  | nil => rfl
  | cons a rest => exact dropLeadingHyphen_cons_neg (h a rfl)

theorem mem_stripEdgeHyphens {c : Char} {l : List Char}
    (h : c ∈ stripEdgeHyphens l) : c ∈ l := by
  unfold stripEdgeHyphens at h
  rw [List.mem_reverse] at h
  have h1 := mem_dropLeadingHyphen h
  rw [List.mem_reverse] at h1
  exact mem_dropLeadingHyphen h1

theorem chain'_stripEdgeHyphens {q : Char → Bool} {l : List Char}
    (h : l.Chain' (NotBothAdj q)) : (stripEdgeHyphens l).Chain' (NotBothAdj q) := by
  unfold stripEdgeHyphens
  rw [List.chain'_reverse]
  apply chain'_dropLeadingHyphen
  rw [List.chain'_reverse]
  exact (chain'_dropLeadingHyphen h).imp (fun a b hab => hab)

theorem stripEdgeHyphens_getLast {l : List Char}
    (hc : l.Chain' (NotBothAdj (fun c => c == '-'))) :
    ∀ c, (stripEdgeHyphens l).getLast? = some c → c ≠ '-' := by
  intro c h
  unfold stripEdgeHyphens at h
  rw [List.getLast?_reverse] at h
  have hc1 := chain'_dropLeadingHyphen hc
  have hc2 : ((dropLeadingHyphen l).reverse).Chain' (NotBothAdj (fun c => c == '-')) := by
    rw [List.chain'_reverse]
    exact hc1.imp (fun a b hab hx => hab ⟨hx.2, hx.1⟩)
  exact head?_dropLeadingHyphen hc2 c h

theorem stripEdgeHyphens_head {l : List Char}
    (hc : l.Chain' (NotBothAdj (fun c => c == '-'))) :
    ∀ c, (stripEdgeHyphens l).head? = some c → c ≠ '-' := by
  intro c h
  unfold stripEdgeHyphens at h
  rw [List.head?_reverse] at h
  have h2 := getLast?_dropLeadingHyphen h
  rw [List.getLast?_reverse] at h2
  exact head?_dropLeadingHyphen hc c h2

theorem stripEdgeHyphens_eq_self {l : List Char}
    (hhead : ∀ c, l.head? = some c → c ≠ '-')
    (hlast : ∀ c, l.getLast? = some c → c ≠ '-') :
    stripEdgeHyphens l = l := by
  unfold stripEdgeHyphens
  rw [dropLeadingHyphen_eq_self hhead]
  have hrev : ∀ c, l.reverse.head? = some c → c ≠ '-' := by
    intro c h
    rw [List.head?_reverse] at h
    exact hlast c h
  rw [dropLeadingHyphen_eq_self hrev, List.reverse_reverse]

theorem nfdTable_vals : ∀ e ∈ nfdTable, 0xC0 ≤ e.1.toNat := by decide

theorem nfdChar_eq_self {c : Char} (h : c.toNat < 0xC0) : nfdChar c = [c] := by
  unfold nfdChar
  have hfind : nfdTable.find? (fun e => e.1 == c) = none := by
    rw [List.find?_eq_none]
    intro e he hbeq
    have h1 : e.1 = c := by simpa using hbeq
    have h2 := nfdTable_vals e he
    rw [h1] at h2
    omega
  rw [hfind]

theorem isCombiningMark_eq_false {c : Char} (h : c.toNat < 0x300) :
    isCombiningMark c = false := by
  simp only [isCombiningMark, Bool.and_eq_false_iff, decide_eq_false_iff_not]
  omega

theorem toLower_eq_self {c : Char} (h : ¬(65 ≤ c.toNat ∧ c.toNat ≤ 90)) :
    c.toLower = c := by
  simp only [Char.toLower]
  rw [if_neg h]

theorem alnum_toNat_facts {c : Char} (h : isLowerAlnum c = true ∨ c = '-') :
    c.toNat < 0xC0 ∧ ¬(65 ≤ c.toNat ∧ c.toNat ≤ 90) ∧ c.toNat < 0x300 := by
  rcases h with h | h
  · simp only [isLowerAlnum, Bool.or_eq_true, Bool.and_eq_true,
      decide_eq_true_eq] at h
    omega
  · subst h; decide

theorem preStage_eq_self :
    ∀ (l : List Char), (∀ c ∈ l, isLowerAlnum c = true ∨ c = '-') →
      ((l.flatMap nfdChar).filter (fun c => !isCombiningMark c)).map Char.toLower = l := by
  intro l h
  induction l with
  | nil => rfl
  | cons a rest ih =>
    obtain ⟨h1, h2, h3⟩ := alnum_toNat_facts (h a (List.mem_cons_self _ _))
    have hfa : (!isCombiningMark a) = true := by
      rw [isCombiningMark_eq_false h3]; rfl
    rw [List.flatMap_cons, nfdChar_eq_self h1, List.singleton_append,
      List.filter_cons_of_pos (p := fun c => !isCombiningMark c) hfa,
      List.map_cons, toLower_eq_self h2,
      ih (fun c hc => h c (List.mem_cons_of_mem _ hc))]

theorem collapseHyphens_replaceRuns (m : List Char) :
    replaceRuns (fun c => c == '-') '-' (replaceRuns (fun c => !isLowerAlnum c) '-' m) =
      replaceRuns (fun c => !isLowerAlnum c) '-' m := by
  apply replaceRunsAux_eq_self
  · intro c _ hc
    simpa using hc
  · apply (chain'_replaceRunsAux false m).imp
    intro a b hab h
    apply hab
    have ha : a = '-' := by simpa using h.1
    have hb : b = '-' := by simpa using h.2
    rw [ha, hb]
    exact ⟨by decide, by decide⟩
  · exact fun hb => absurd hb Bool.false_ne_true

theorem isNormal_normalizeNameList (l : List Char) :
    IsNormalList (normalizeNameList l) := by
  unfold normalizeNameList
  rw [collapseHyphens_replaceRuns]
  have halpha : ∀ c ∈ replaceRuns (fun c => !isLowerAlnum c) '-'
      (((l.flatMap nfdChar).filter (fun c => !isCombiningMark c)).map Char.toLower),
      isLowerAlnum c = true ∨ c = '-' := by
    intro c hc
    rcases mem_replaceRunsAux false _ c hc with h | ⟨_, h⟩
    · exact .inr h
    · exact .inl (by simpa using h)
  have hchain : (replaceRuns (fun c => !isLowerAlnum c) '-'
      (((l.flatMap nfdChar).filter (fun c => !isCombiningMark c)).map Char.toLower)).Chain'
      (NotBothAdj (fun c => c == '-')) := by
    apply (chain'_replaceRunsAux false _).imp
    intro a b hab h
    apply hab
    have ha : a = '-' := by simpa using h.1
    have hb : b = '-' := by simpa using h.2
    rw [ha, hb]
    exact ⟨by decide, by decide⟩
  exact ⟨fun c hc => halpha c (mem_stripEdgeHyphens hc),
    chain'_stripEdgeHyphens hchain,
    stripEdgeHyphens_head hchain,
    stripEdgeHyphens_getLast hchain⟩

theorem normalizeNameList_eq_self {l : List Char} (h : IsNormalList l) :
    normalizeNameList l = l := by
  obtain ⟨halpha, hchain, hhead, hlast⟩ := h
  unfold normalizeNameList
  rw [preStage_eq_self l halpha]
  have hr1 : replaceRuns (fun c => !isLowerAlnum c) '-' l = l := by
    apply replaceRunsAux_eq_self
    · intro c hc hp
      rcases halpha c hc with h1 | h1
      · simp [h1] at hp
      · exact h1
    · apply chain'_imp_mem _ _ hchain
      intro a ha b hb hab h
      apply hab
      rcases halpha a ha with h1 | h1
      · simp [h1] at h
      · rcases halpha b hb with h2 | h2
        · simp [h2] at h
        · rw [h1, h2]; exact ⟨by decide, by decide⟩
    · exact fun hb => absurd hb Bool.false_ne_true
  rw [hr1]
  have hr2 : replaceRuns (fun c => c == '-') '-' l = l := by
    apply replaceRunsAux_eq_self
    · intro c _ hc
      simpa using hc
    · exact hchain
    · exact fun hb => absurd hb Bool.false_ne_true
  rw [hr2]
  exact stripEdgeHyphens_eq_self hhead hlast

theorem normalizeNameList_idem (l : List Char) :
    normalizeNameList (normalizeNameList l) = normalizeNameList l :=
  normalizeNameList_eq_self (isNormal_normalizeNameList l)

theorem string_length_pos_iff (s : String) : s.length > 0 ↔ s ≠ "" := by
  cases s with
  | mk data =>
    constructor
    · intro h he
      rw [he] at h
      simp [String.length] at h
    · intro h
      cases data with
      | nil => exact absurd rfl h
      | cons c cs => simp [String.length]

theorem mapGet_nil (k : String) : mapGet k [] = none := rfl

theorem mapGet_mapSet (m : AliasMap) (k k0 v : String) :
    mapGet k (mapSet m k0 v) = if k0 == k then some v else mapGet k m := by
  simp only [mapGet, mapSet, List.find?_cons]
  by_cases h : (k0 == k) = true
  · simp [h]
  · simp [h]

theorem mapGet_foldl_variants (vs : List String) (id : String) :
    ∀ (m : AliasMap) (k v : String),
    mapGet k (vs.foldl (fun map variant =>
      if variant == "" then map else mapSet map (normalizeName variant) id) m) = some v →
    (v = id ∧ ∃ variant ∈ vs, variant ≠ "" ∧ k = normalizeName variant) ∨
      mapGet k m = some v := by
  induction vs with
  | nil => intro m k v h; exact .inr h
  | cons x xs ih =>
    intro m k v h
    rw [List.foldl_cons] at h
    rcases ih _ k v h with h1 | h1
    · obtain ⟨hv, w, hw, hne, hk⟩ := h1
      exact .inl ⟨hv, w, List.mem_cons_of_mem _ hw, hne, hk⟩
    · by_cases hx : (x == "") = true
      · rw [if_pos hx] at h1
        exact .inr h1
      · rw [if_neg hx, mapGet_mapSet] at h1
        by_cases hk : (normalizeName x == k) = true
        · rw [if_pos hk] at h1
          refine .inl ⟨by simpa using h1.symm, x, List.mem_cons_self _ _,
            by simpa using hx, ?_⟩
          have := (beq_iff_eq ..).mp hk
          exact this.symm
        · rw [if_neg hk] at h1
          exact .inr h1

theorem mapGet_buildPokemonAliasMap (data : List PokedexEntry) (k v : String) :
    mapGet k (buildPokemonAliasMap data) = some v →
    ∃ entry ∈ data, v = toString entry.id ∧
      ∃ variant ∈ [toString entry.id,
          (entry.name.bind NameEntry.english).getD "",
          (entry.name.bind NameEntry.french).getD "",
          slugifyName ((entry.name.bind NameEntry.english).getD "")],
        variant ≠ "" ∧ k = normalizeName variant := by
  suffices h : ∀ (init : AliasMap),
      mapGet k (data.foldl addAliasEntry init) = some v →
      (∃ entry ∈ data, v = toString entry.id ∧
        ∃ variant ∈ [toString entry.id,
            (entry.name.bind NameEntry.english).getD "",
            (entry.name.bind NameEntry.french).getD "",
            slugifyName ((entry.name.bind NameEntry.english).getD "")],
          variant ≠ "" ∧ k = normalizeName variant) ∨
        mapGet k init = some v by
    intro hm
    rcases h [] hm with h1 | h1
    · exact h1
    · rw [mapGet_nil] at h1
      exact absurd h1 (by simp)
  induction data with
  | nil => intro init h; exact .inr h
  | cons e rest ih =>
    intro init h
    rw [List.foldl_cons] at h
    rcases ih _ h with h1 | h1
    · left
      obtain ⟨entry, he, hrest⟩ := h1
      exact ⟨entry, List.mem_cons_of_mem _ he, hrest⟩
    · rcases mapGet_foldl_variants _ _ _ _ _ h1 with h2 | h2
      · left
        exact ⟨e, List.mem_cons_self _ _, h2.1, h2.2⟩
      · right
        exact h2

theorem runAliasCalls_stable : ∀ (n : Nat) (st : AliasCacheState) (p : Nat),
    st.promise = some p → runAliasCalls n st = (st, List.replicate n p) := by
  intro n
  induction n with
  | zero => intro st p _; rfl
  | succ n ih =>
    intro st p h
    have hstep : getPokemonAliasMapStep st = (st, p) := by
      unfold getPokemonAliasMapStep
      rw [h]
    show (let step := getPokemonAliasMapStep st
      let rest := runAliasCalls n step.1
      (rest.1, step.2 :: rest.2)) = (st, List.replicate (n + 1) p)
    rw [hstep]
    show ((runAliasCalls n st).1, p :: (runAliasCalls n st).2) = (st, List.replicate (n + 1) p)
    rw [ih st p h, List.replicate_succ]

theorem getLast?_dropWhile {p : Char → Bool} {m : List Char} {c : Char}
    (h : (m.dropWhile p).getLast? = some c) : m.getLast? = some c := by
  obtain ⟨t, ht⟩ := List.dropWhile_suffix (l := m) p
  rw [← ht, List.getLast?_append, h]
  rfl

theorem mem_jsTrimList {c : Char} {l : List Char} (h : c ∈ jsTrimList l) : c ∈ l := by
  unfold jsTrimList at h
  rw [List.mem_reverse] at h
  have h1 := (List.dropWhile_sublist jsIsWhitespace).subset h
  rw [List.mem_reverse] at h1
  exact (List.dropWhile_sublist jsIsWhitespace).subset h1

theorem chain'_jsTrimList {q : Char → Bool} {l : List Char}
    (h : l.Chain' (NotBothAdj q)) : (jsTrimList l).Chain' (NotBothAdj q) := by
  unfold jsTrimList
  have c1 : (l.dropWhile jsIsWhitespace).Chain' (NotBothAdj q) :=
    h.suffix (List.dropWhile_suffix _)
  have c2 : ((l.dropWhile jsIsWhitespace).reverse).Chain' (NotBothAdj q) := by
    rw [List.chain'_reverse]
    exact c1.imp (fun a b hab hx => hab ⟨hx.2, hx.1⟩)
  have c3 : (((l.dropWhile jsIsWhitespace).reverse).dropWhile jsIsWhitespace).Chain'
      (NotBothAdj q) := c2.suffix (List.dropWhile_suffix _)
  rw [List.chain'_reverse]
  exact c3.imp (fun a b hab hx => hab ⟨hx.2, hx.1⟩)

theorem jsTrimList_getLast {l : List Char} {c : Char}
    (h : (jsTrimList l).getLast? = some c) : jsIsWhitespace c = false := by
  unfold jsTrimList at h
  rw [List.getLast?_reverse] at h
  have := List.head?_dropWhile_not jsIsWhitespace ((l.dropWhile jsIsWhitespace).reverse)
  rw [h] at this
  exact this

theorem jsTrimList_head {l : List Char} {c : Char}
    (h : (jsTrimList l).head? = some c) : jsIsWhitespace c = false := by
  unfold jsTrimList at h
  rw [List.head?_reverse] at h
  have h1 := getLast?_dropWhile h
  rw [List.getLast?_reverse] at h1
  have := List.head?_dropWhile_not jsIsWhitespace l
  rw [h1] at this
  exact this

theorem processRow_incomplete (am : AliasMap)
    (fp : String → Except String (Option PokemonData))
    (fs : String → Except String (Option SpeciesData))
    (row : List String)
    (h : rowField row 0 = "" ∨ rowField row 1 = "") :
    processRow am fp fs row = (none, [LogEntry.skippingIncompleteRow row]) := by
  simp only [processRow]
  rcases h with h | h <;> simp [h]

theorem processRow_ok (am : AliasMap)
    (fp : String → Except String (Option PokemonData))
    (fs : String → Except String (Option SpeciesData))
    (row : List String) (pd : Option PokemonData) (sd : Option SpeciesData)
    (h1 : ¬rowField row 0 = "") (h2 : ¬rowField row 1 = "")
    (hfp : fp (resolvePokemonIdentifier am (jsTrim (rowField row 1))) = Except.ok pd)
    (hfs : fs (resolvePokemonIdentifier am (jsTrim (rowField row 1))) = Except.ok sd) :
    processRow am fp fs row =
      (some { name := jsTrim (rowField row 0)
              pokemon := capitalizeName (jsTrim (rowField row 1))
              image := selectImage pd
              description := extractFlavorText sd },
       if (selectImage pd).isNone then [LogEntry.noArtworkFound (rowField row 1)] else []) := by
  simp only [processRow]
  rw [if_neg (by simp [h1, h2]), hfp, hfs]

theorem processRow_fetch_error (am : AliasMap)
    (fp : String → Except String (Option PokemonData))
    (fs : String → Except String (Option SpeciesData))
    (row : List String) (e : String)
    (h1 : ¬rowField row 0 = "") (h2 : ¬rowField row 1 = "")
    (herr : fp (resolvePokemonIdentifier am (jsTrim (rowField row 1))) = Except.error e ∨
      (∃ pd, fp (resolvePokemonIdentifier am (jsTrim (rowField row 1))) = Except.ok pd ∧
        fs (resolvePokemonIdentifier am (jsTrim (rowField row 1))) = Except.error e)) :
    processRow am fp fs row = (none, [LogEntry.failedToFetch (rowField row 1) e]) := by
  simp only [processRow]
  rw [if_neg (by simp [h1, h2])]
  rcases herr with herr | ⟨pd, hok, herr⟩
  · rw [herr]
  · rw [hok, herr]

/-- C1 counterexample: the input text `","` parses to a single row whose
person and species fields are both empty, so it yields zero usable rows;
yet the run does not fail — it skips the row with a warning and succeeds
with an empty dataset, refuting the claim that zero usable rows cause an
error message and exit code 1. -/
theorem C1_counterexample :
    (∀ row ∈ parseCsv ",", ¬(rowField row 0 ≠ "" ∧ rowField row 1 ≠ "")) ∧
    mainRun [] (fun _ => Except.error "offline") (fun _ => Except.error "offline") "," =
      RunOutcome.success [] [LogEntry.skippingIncompleteRow ["", ""]] := by
  exact ⟨by decide, by decide⟩

/-- C1 (amended): the run fails at process level — printing "No data found
in CSV." and exiting with code 1 — exactly when parsing yields zero rows at
all (no non-blank, non-comment line); rows whose person or species field is
empty are parsed rows: they are skipped with a warning, do not trigger the
fatal exit, and the run succeeds (with an empty dataset if no row was
usable). -/
theorem C1_fatal_iff_unparsed (aliasMap : AliasMap)
    (fp : String → Except String (Option PokemonData))
    (fs : String → Except String (Option SpeciesData)) (content : String) :
    mainRun aliasMap fp fs content = RunOutcome.fatalError [LogEntry.noDataFound] ↔
      parseCsv content = [] := by
  unfold mainRun
  by_cases h : (parseCsv content).length = 0
  · rw [if_pos h]
    simp [List.length_eq_zero.mp h]
  · rw [if_neg h]
    constructor
    · intro hc
      exact absurd hc (by simp)
    · intro hc
      rw [hc] at h
      simp at h

/-- C2: `resolvePokemonIdentifier` returns exactly the mapped canonical id
whenever the normalized raw name hits an alias-map key, and otherwise the
normalized slug of the input (or the raw input unchanged when that slug is
empty); moreover every binding of the built alias map stems from some
reference record, maps to that record's id, and is keyed by the normalized
form of one of the record's non-empty variants (id, English name, French
name, slug of the English name). -/
theorem C2_resolve_contract (aliasMap : AliasMap) (rawName : String) :
    (∀ id, mapGet (normalizeName rawName) aliasMap = some id →
      resolvePokemonIdentifier aliasMap rawName = id) ∧
    (mapGet (normalizeName rawName) aliasMap = none →
      resolvePokemonIdentifier aliasMap rawName =
        if slugifyName rawName ≠ "" then slugifyName rawName else rawName) ∧
    (∀ (data : List PokedexEntry) (k v : String),
      mapGet k (buildPokemonAliasMap data) = some v →
      ∃ entry ∈ data, v = toString entry.id ∧
        ∃ variant ∈ [toString entry.id,
            (entry.name.bind NameEntry.english).getD "",
            (entry.name.bind NameEntry.french).getD "",
            slugifyName ((entry.name.bind NameEntry.english).getD "")],
          variant ≠ "" ∧ k = normalizeName variant) := by
  refine ⟨?_, ?_, fun data k v h => mapGet_buildPokemonAliasMap data k v h⟩
  · intro id h
    simp only [resolvePokemonIdentifier, h]
  · intro h
    simp only [resolvePokemonIdentifier, h]
    by_cases hs : slugifyName rawName ≠ ""
    · rw [if_pos ((string_length_pos_iff _).mpr hs), if_pos hs]
    · rw [if_neg (fun hlen => hs ((string_length_pos_iff _).mp hlen)), if_neg hs]

theorem C2_resolve_contract_witness :
    resolvePokemonIdentifier [("pikachu", "25")] "Pikachu" = "25" :=
  (C2_resolve_contract [("pikachu", "25")] "Pikachu").1 "25" (by decide)

/-- C7: when the fetch of the external reference dataset fails,
`getPokemonAliasMap` logs the failure and degrades to the empty alias
table instead of propagating the error, and against the empty table every
resolution falls through to the slug fallback (the normalized slug of the
input, or the raw input when the slug is empty), so the run continues. -/
theorem C7_alias_fetch_failure_degrades (msg rawName : String) :
    getPokemonAliasMapResult (Except.error msg) =
      ([], [LogEntry.aliasMapFetchFailed msg]) ∧
    resolvePokemonIdentifier [] rawName =
      (if slugifyName rawName ≠ "" then slugifyName rawName else rawName) := by
  refine ⟨rfl, ?_⟩
  simp only [resolvePokemonIdentifier, mapGet_nil]
  by_cases hs : slugifyName rawName ≠ ""
  · rw [if_pos ((string_length_pos_iff _).mpr hs), if_pos hs]
  · rw [if_neg (fun hlen => hs ((string_length_pos_iff _).mp hlen)), if_neg hs]

/-- C8: in any sequence of `n` calls to `getPokemonAliasMap` (the order in
which the single-threaded event loop serialises them), starting from the
fresh process state, the reference dataset is fetched `min n 1` times —
at most once — and every call, including the ones arriving while the first
fetch is still outstanding, returns the promise created by that single
fetch (promise number 0). -/
theorem C8_alias_fetch_once (n : Nat) :
    (runAliasCalls n initialAliasCacheState).1.fetchCount = min n 1 ∧
    (runAliasCalls n initialAliasCacheState).2 = List.replicate n 0 := by
  cases n with
  | zero => exact ⟨rfl, rfl⟩
  | succ n =>
    have hstep : getPokemonAliasMapStep initialAliasCacheState =
        ({ promise := some 0, fetchCount := 1 }, 0) := rfl
    show (runAliasCalls n { promise := some 0, fetchCount := 1 }).1.fetchCount =
        min (n + 1) 1 ∧
      (0 : Nat) :: (runAliasCalls n { promise := some 0, fetchCount := 1 }).2 =
        List.replicate (n + 1) 0
    rw [runAliasCalls_stable n { promise := some 0, fetchCount := 1 } 0 rfl]
    refine ⟨?_, ?_⟩
    · show (1 : Nat) = min (n + 1) 1
      rw [Nat.min_eq_right (by omega)]
    · show (0 : Nat) :: List.replicate n 0 = List.replicate (n + 1) 0
      rw [List.replicate_succ]

/-- C9: `normalizeName` is idempotent — normalizing an already-normalized
name changes nothing — and consequently (since `slugifyName` is
`normalizeName`) the alias-map key derived from the slugified English name
coincides with the key derived from the English name itself. -/
theorem C9_normalizeName_idempotent (s english : String) :
    normalizeName (normalizeName s) = normalizeName s ∧
    normalizeName (slugifyName english) = normalizeName english := by
  constructor
  · exact congrArg String.mk (normalizeNameList_idem s.data)
  · exact congrArg String.mk (normalizeNameList_idem english.data)

/-- C3: the dataset is exactly the in-order `filterMap` of the row
processor over the input rows — one record per successful row, failed rows
omitted entirely with no placeholder — the logs are the in-order
concatenation of the per-row logs (processing continues after a failure),
and a row whose metadata fetch fails produces no record and exactly one
error log carrying the offending species name. -/
theorem C3_dataset_order (am : AliasMap)
    (fp : String → Except String (Option PokemonData))
    (fs : String → Except String (Option SpeciesData))
    (rows : List (List String)) :
    (processRows am fp fs rows).1 =
      rows.filterMap (fun row => (processRow am fp fs row).1) ∧
    (processRows am fp fs rows).2 =
      rows.flatMap (fun row => (processRow am fp fs row).2) ∧
    (∀ row ∈ rows, ∀ e : String,
      rowField row 0 ≠ "" → rowField row 1 ≠ "" →
      (fp (resolvePokemonIdentifier am (jsTrim (rowField row 1))) = Except.error e ∨
        (∃ pd, fp (resolvePokemonIdentifier am (jsTrim (rowField row 1))) = Except.ok pd ∧
          fs (resolvePokemonIdentifier am (jsTrim (rowField row 1))) = Except.error e)) →
      processRow am fp fs row = (none, [LogEntry.failedToFetch (rowField row 1) e])) := by
  refine ⟨?_, ?_, fun row _ e h1 h2 herr => processRow_fetch_error am fp fs row e h1 h2 herr⟩
  · induction rows with
    | nil => rfl
    | cons row rest ih =>
      show (processRow am fp fs row).1.toList ++ (processRows am fp fs rest).1 = _
      cases h : (processRow am fp fs row).1 with
      | none => simp [List.filterMap_cons, h, ih]
      | some r => simp [List.filterMap_cons, h, ih]
  · induction rows with
    | nil => rfl
    | cons row rest ih =>
      show (processRow am fp fs row).2 ++ (processRows am fp fs rest).2 = _
      simp [List.flatMap_cons, ih]

theorem C3_dataset_order_witness :
    processRow [] (fun _ => Except.error "boom") (fun _ => Except.ok none)
      ["Ash", "Pikachu"] = (none, [LogEntry.failedToFetch "Pikachu" "boom"]) :=
  (C3_dataset_order [] (fun _ => Except.error "boom") (fun _ => Except.ok none)
      [["Ash", "Pikachu"]]).2.2 ["Ash", "Pikachu"] (by decide) "boom" (by decide) (by decide)
    (Or.inl rfl)

/-- C4: the selected image is the high-resolution official-artwork field
when present, else the basic sprite field (hence `null` when that is also
absent); and when no image is found the row is still emitted — with a
`null` image and a logged warning — rather than failing. -/
theorem C4_image_selection (pd : Option PokemonData) :
    (∀ url, ((((pd.bind PokemonData.sprites).bind Sprites.other).bind
        SpritesOther.officialArtwork).bind OfficialArtwork.front_default) = some url →
      selectImage pd = some url) ∧
    (((((pd.bind PokemonData.sprites).bind Sprites.other).bind
        SpritesOther.officialArtwork).bind OfficialArtwork.front_default) = none →
      selectImage pd = (pd.bind PokemonData.sprites).bind Sprites.front_default) ∧
    (∀ (am : AliasMap) (fp : String → Except String (Option PokemonData))
        (fs : String → Except String (Option SpeciesData))
        (row : List String) (sd : Option SpeciesData),
      rowField row 0 ≠ "" → rowField row 1 ≠ "" →
      fp (resolvePokemonIdentifier am (jsTrim (rowField row 1))) = Except.ok pd →
      fs (resolvePokemonIdentifier am (jsTrim (rowField row 1))) = Except.ok sd →
      selectImage pd = none →
      processRow am fp fs row =
        (some { name := jsTrim (rowField row 0)
                pokemon := capitalizeName (jsTrim (rowField row 1))
                image := none
                description := extractFlavorText sd },
         [LogEntry.noArtworkFound (rowField row 1)])) := by
  refine ⟨?_, ?_, ?_⟩
  · intro url h
    unfold selectImage
    rw [h, Option.some_orElse]
  · intro h
    unfold selectImage
    rw [h, Option.none_orElse]
  · intro am fp fs row sd h1 h2 hfp hfs himg
    rw [processRow_ok am fp fs row pd sd h1 h2 hfp hfs, himg]
    simp

theorem C4_image_selection_witness :
    selectImage (some (PokemonData.mk (some (Sprites.mk
        (some (SpritesOther.mk (some (OfficialArtwork.mk (some "artwork.png")))))
        (some "sprite.png"))))) = some "artwork.png" :=
  (C4_image_selection _).1 "artwork.png" rfl

/-- C6: the species name of every emitted record is the trimmed raw
species field title-cased word by word (each whitespace-separated word
gets its first character uppercased and the rest lowercased); in
particular `capitalizeName "mr mime" = "Mr Mime"` and
`capitalizeName "PIKACHU" = "Pikachu"`. -/
theorem C6_capitalize (am : AliasMap)
    (fp : String → Except String (Option PokemonData))
    (fs : String → Except String (Option SpeciesData))
    (row : List String) (record : TeamRecord) :
    capitalizeName "mr mime" = "Mr Mime" ∧
    capitalizeName "PIKACHU" = "Pikachu" ∧
    ((processRow am fp fs row).1 = some record →
      record.pokemon = capitalizeName (jsTrim (rowField row 1))) := by
  refine ⟨by decide, by decide, ?_⟩
  intro h
  by_cases h1 : rowField row 0 = ""
  · rw [processRow_incomplete am fp fs row (Or.inl h1)] at h
    simp at h
  by_cases h2 : rowField row 1 = ""
  · rw [processRow_incomplete am fp fs row (Or.inr h2)] at h
    simp at h
  cases hfp : fp (resolvePokemonIdentifier am (jsTrim (rowField row 1))) with
  | error e =>
    rw [processRow_fetch_error am fp fs row e h1 h2 (Or.inl hfp)] at h
    simp at h
  | ok pd =>
    cases hfs : fs (resolvePokemonIdentifier am (jsTrim (rowField row 1))) with
    | error e =>
      rw [processRow_fetch_error am fp fs row e h1 h2 (Or.inr ⟨pd, hfp, hfs⟩)] at h
      simp at h
    | ok sd =>
      rw [processRow_ok am fp fs row pd sd h1 h2 hfp hfs] at h
      simp only [Option.some.injEq] at h
      rw [← h]

theorem C6_capitalize_witness :
    (TeamRecord.mk "Ash" "Pikachu" none "").pokemon =
      capitalizeName (jsTrim (rowField ["Ash", "pikachu"] 1)) :=
  (C6_capitalize [] (fun _ => Except.ok none) (fun _ => Except.ok none)
      ["Ash", "pikachu"] (TeamRecord.mk "Ash" "Pikachu" none "")).2.2 (by decide)

/-- C10: a line with more than two comma-separated fields parses to all
its trimmed fields; the row processor reads only the first two, so the
produced record is insensitive to the extra fields, and when the first two
fields are non-empty the entire outcome — logs included, so no warning
about the extras — coincides with that of the two-field row. -/
theorem C10_extra_fields_ignored (am : AliasMap)
    (fp : String → Except String (Option PokemonData))
    (fs : String → Except String (Option SpeciesData))
    (f1 f2 : String) (rest : List String) :
    parseCsv "Ash , Pikachu ,extra, 42" = [["Ash", "Pikachu", "extra", "42"]] ∧
    (processRow am fp fs (f1 :: f2 :: rest)).1 = (processRow am fp fs [f1, f2]).1 ∧
    (f1 ≠ "" → f2 ≠ "" →
      processRow am fp fs (f1 :: f2 :: rest) = processRow am fp fs [f1, f2]) := by
  have hfull : f1 ≠ "" → f2 ≠ "" →
      processRow am fp fs (f1 :: f2 :: rest) = processRow am fp fs [f1, f2] := by
    intro h1 h2
    cases hfp : fp (resolvePokemonIdentifier am (jsTrim f2)) with
    | error e =>
      rw [processRow_fetch_error am fp fs (f1 :: f2 :: rest) e h1 h2 (Or.inl hfp),
        processRow_fetch_error am fp fs [f1, f2] e h1 h2 (Or.inl hfp)]
      exact rfl
    | ok pd =>
      cases hfs : fs (resolvePokemonIdentifier am (jsTrim f2)) with
      | error e =>
        rw [processRow_fetch_error am fp fs (f1 :: f2 :: rest) e h1 h2
            (Or.inr ⟨pd, hfp, hfs⟩),
          processRow_fetch_error am fp fs [f1, f2] e h1 h2 (Or.inr ⟨pd, hfp, hfs⟩)]
        exact rfl
      | ok sd =>
        rw [processRow_ok am fp fs (f1 :: f2 :: rest) pd sd h1 h2 hfp hfs,
          processRow_ok am fp fs [f1, f2] pd sd h1 h2 hfp hfs]
        exact rfl
  refine ⟨by decide, ?_, hfull⟩
  by_cases h1 : f1 = ""
  · rw [processRow_incomplete am fp fs (f1 :: f2 :: rest) (Or.inl h1),
      processRow_incomplete am fp fs [f1, f2] (Or.inl h1)]
  by_cases h2 : f2 = ""
  · rw [processRow_incomplete am fp fs (f1 :: f2 :: rest) (Or.inr h2),
      processRow_incomplete am fp fs [f1, f2] (Or.inr h2)]
  rw [hfull h1 h2]

theorem C10_extra_fields_ignored_witness :
    processRow [] (fun _ => Except.ok none) (fun _ => Except.ok none)
      ["Ash", "Pikachu", "extra"] =
    processRow [] (fun _ => Except.ok none) (fun _ => Except.ok none) ["Ash", "Pikachu"] :=
  (C10_extra_fields_ignored [] (fun _ => Except.ok none) (fun _ => Except.ok none)
      "Ash" "Pikachu" ["extra"]).2.2 (by decide) (by decide)

/-- C5: the selected description is the French flavor text entry's text
when the entry is found and carries a text, else the English entry's text,
else the first entry's text, else the empty string; and the selected text
is sanitized — in the result every whitespace character is a plain space,
no two whitespace characters are adjacent (runs are collapsed), and there
is no leading or trailing whitespace. -/
theorem C5_description_selection (sd : Option SpeciesData)
    (entries : List FlavorTextEntry)
    (hent : (sd.bind SpeciesData.flavor_text_entries).getD [] = entries) :
    (∀ e t, entries.find? (isLanguageEntry "fr") = some e →
      e.flavor_text = some t → extractFlavorText sd = sanitizeFlavorText t) ∧
    ((entries.find? (isLanguageEntry "fr")).bind FlavorTextEntry.flavor_text = none →
      ∀ e t, entries.find? (isLanguageEntry "en") = some e →
        e.flavor_text = some t → extractFlavorText sd = sanitizeFlavorText t) ∧
    ((entries.find? (isLanguageEntry "fr")).bind FlavorTextEntry.flavor_text = none →
      (entries.find? (isLanguageEntry "en")).bind FlavorTextEntry.flavor_text = none →
      ∀ e t, entries.head? = some e → e.flavor_text = some t →
        extractFlavorText sd = sanitizeFlavorText t) ∧
    ((entries.find? (isLanguageEntry "fr")).bind FlavorTextEntry.flavor_text = none →
      (entries.find? (isLanguageEntry "en")).bind FlavorTextEntry.flavor_text = none →
      (entries.head?).bind FlavorTextEntry.flavor_text = none →
      extractFlavorText sd = "") ∧
    (∀ raw c, c ∈ (sanitizeFlavorText raw).data → jsIsWhitespace c = true → c = ' ') ∧
    (∀ raw, (sanitizeFlavorText raw).data.Chain' (NotBothAdj jsIsWhitespace)) ∧
    (∀ raw c, ((sanitizeFlavorText raw).data.head? = some c → jsIsWhitespace c = false) ∧
      ((sanitizeFlavorText raw).data.getLast? = some c → jsIsWhitespace c = false)) := by
  refine ⟨?_, ?_, ?_, ?_, ?_, ?_, ?_⟩
  · intro e t hfr ht
    simp only [extractFlavorText, hent, hfr, Option.some_bind, ht, Option.some_orElse,
      Option.getD_some]
  · intro hfrn e t hen ht
    simp only [extractFlavorText, hent, hfrn, hen, Option.some_bind, ht,
      Option.none_orElse, Option.some_orElse, Option.getD_some]
  · intro hfrn henn e t hh ht
    simp only [extractFlavorText, hent, hfrn, henn, hh, Option.some_bind, ht,
      Option.none_orElse, Option.some_orElse, Option.getD_some]
  · intro hfrn henn hhn
    simp only [extractFlavorText, hent, hfrn, henn, hhn, Option.none_orElse,
      Option.getD_none]
    rfl
  · intro raw c hc hws
    have h1 := mem_jsTrimList hc
    rcases mem_replaceRunsAux false _ c h1 with h2 | ⟨_, h2⟩
    · exact h2
    · rw [hws] at h2
      exact absurd h2 (by simp)
  · intro raw
    exact chain'_jsTrimList (chain'_replaceRunsAux false _)
  · intro raw c
    exact ⟨fun h => jsTrimList_head h, fun h => jsTrimList_getLast h⟩

theorem C5_description_selection_witness :
    extractFlavorText (some (SpeciesData.mk (some
      [FlavorTextEntry.mk (some "  Bonjour\u000c le  monde ")
        (some (FlavorLanguage.mk (some "fr")))]))) =
    sanitizeFlavorText "  Bonjour\u000c le  monde " :=
  (C5_description_selection _ _ rfl).1
    (FlavorTextEntry.mk (some "  Bonjour\u000c le  monde ")
      (some (FlavorLanguage.mk (some "fr"))))
    "  Bonjour\u000c le  monde " (by decide) rfl
